import Mathlib

/-!
# Verification of the chat client (freamwork97/chat_test)

Shallow embedding of the React chat client in `src/frontend/src/App.tsx`,
of the legacy client embedded in `src/Dockerfile`, and of the server-side
hub described by the specification (the backend `main.py` is copied into
the container image but is not part of the repository's files, so the hub
is modelled from the specification's words).

Conventions of the embedding:
* A message timestamp is the number of milliseconds a `new Date(s).getTime()`
  call returns for the ISO string `s`, modelled directly as a `Nat`.
* `new Date().toISOString()` at handler time is the explicit parameter `now`.
* The WebSocket reference `wsRef.current` is an `Option ReadyState`:
  `none` models a null reference, `some rs` a socket in state `rs`.
* React state setters become functional record updates on `ClientState`;
  one delivered transport payload is one application of the step function.
-/

/-- JavaScript whitespace for `String.prototype.trim` (the characters the
client's `.trim()` calls strip): ASCII blanks plus NBSP, line/paragraph
separators and the BOM. -/
def jsWhitespace (c : Char) : Bool :=
  c == ' ' || c == '\t' || c == '\n' || c == '\r' ||
  c.toNat == 0x0b || c.toNat == 0x0c || c.toNat == 0xa0 ||
  c.toNat == 0x2028 || c.toNat == 0x2029 || c.toNat == 0xfeff

/-- `String.prototype.trim` on the character list: drop whitespace from
both ends. -/
def jsTrimList (l : List Char) : List Char :=
  ((l.dropWhile jsWhitespace).reverse.dropWhile jsWhitespace).reverse

/-- `String.prototype.trim` as the client calls it (`name.trim()`,
`room.trim()`, `input.trim()`). -/
def jsTrim (s : String) : String :=
  ⟨jsTrimList s.data⟩

/-- The three renderable message variants of the client
(`ChatMsg | SystemMsg | ImageMsg` in `App.tsx`). -/
inductive Msg where
  | chat (text : String) (sender : String) (timestamp : Nat) (room : Option String)
  | system (text : String) (timestamp : Nat) (room : Option String)
  | image (text : Option String) (imageData : String) (sender : String)
      (timestamp : Nat) (room : Option String)
deriving DecidableEq, Repr

/-- The parsed timestamp of a message (`new Date(m.timestamp).getTime()`). -/
def Msg.timestamp : Msg → Nat
  | .chat _ _ ts _ => ts
  | .system _ ts _ => ts
  | .image _ _ _ ts _ => ts

/-- The sender of a message; a `SystemMsg` always carries `sender: "system"`. -/
def Msg.sender : Msg → String
  | .chat _ s _ _ => s
  | .system _ _ _ => "system"
  | .image _ _ s _ _ => s

/-- One inbound transport payload, after the `JSON.parse` attempt and the
`type` dispatch of `ws.onmessage`: the recognised events, `other` for a
parsed object whose `type` is none of the seven tags, and `malformed` for
data that is not JSON at all (or a JSON value on which the dispatch throws,
which the surrounding `try` swallows). -/
inductive InEvent where
  | users (us : List String)
  | error (text : String) (reason : Option String)
  | assign (name : String) (room : Option String)
  | history (room : String) (messages : List Msg)
  | msg (m : Msg)
  | other
  | malformed
deriving DecidableEq, Repr

/-- The connection status banner: 연결 중 / 연결됨 / 연결 종료 / 오류. -/
inductive Status where
  | connecting
  | connected
  | closed
  | error
deriving DecidableEq, Repr

/-- `WebSocket.readyState`. -/
inductive ReadyState where
  | CONNECTING
  | OPEN
  | CLOSING
  | CLOSED
deriving DecidableEq, Repr

/-- The React state of the client component, plus the socket reference. -/
structure ClientState where
  name : String
  room : String
  isConnected : Bool
  status : Status
  messages : List Msg
  users : List String
  input : String
  ws : Option ReadyState
deriving DecidableEq, Repr

/-- `hardClose`: close the socket (if any) and null the reference. -/
def hardClose (st : ClientState) : ClientState :=
  { st with ws := none }

/-- The comparison `(a, b) => new Date(a.timestamp).getTime() - new
Date(b.timestamp).getTime()` used by the history branch, as the Boolean
order the stable JavaScript `Array.prototype.sort` realises. -/
def tsLE (a b : Msg) : Bool :=
  a.timestamp ≤ b.timestamp

/-- `[...h.messages].sort((a, b) => ...)`: a stable ascending sort of the
history snapshot by parsed timestamp. -/
def sortByTimestamp (l : List Msg) : List Msg :=
  l.mergeSort tsLE

/-- The system notice the assign branch appends:
`닉네임이 '${newName}'(으)로 지정되었습니다.` -/
def assignNotice (n : String) : String :=
  "닉네임이 '" ++ n ++ "'(으)로 지정되었습니다."

/-- `ws.onmessage` of the current client (`src/frontend/src/App.tsx`):
one delivered payload updates the state. -/
def onMessage (st : ClientState) (now : Nat) : InEvent → ClientState
  | .users us => { st with users := us }
  | .error text _ =>
      hardClose { st with
        status := .error,
        messages := st.messages ++ [.system text now none] }
  | .assign n _ =>
      { st with
        name := n,
        messages := st.messages ++ [.system (assignNotice n) now none] }
  | .history _ msgs => { st with messages := sortByTimestamp msgs }
  | .msg m => { st with messages := st.messages ++ [m] }
  | .other => st
  | .malformed => st

/-- `ws.onmessage` of the legacy client embedded in `src/Dockerfile`: the
same dispatch, except that its final branch appends only `system` and
`chat` messages, so an `image` event falls through and is discarded. -/
def legacyOnMessage (st : ClientState) (now : Nat) : InEvent → ClientState
  | .users us => { st with users := us }
  | .error text _ =>
      hardClose { st with
        status := .error,
        messages := st.messages ++ [.system text now none] }
  | .assign n _ =>
      { st with
        name := n,
        messages := st.messages ++ [.system (assignNotice n) now none] }
  | .history _ msgs => { st with messages := sortByTimestamp msgs }
  | .msg m =>
      match m with
      | .image _ _ _ _ _ => st
      | _ => { st with messages := st.messages ++ [m] }
  | .other => st
  | .malformed => st

/-- Unreserved characters of `encodeURIComponent`: letters, digits and
`- _ . ! ~ * ( )` and the apostrophe pass through unescaped. -/
def isUnreservedURI (c : Char) : Bool :=
  c.isAlpha || c.isDigit ||
  c == '-' || c == '_' || c == '.' || c == '!' || c == '~' ||
  c == '*' || c == '\x27' || c == '(' || c == ')'

/-- The UTF-8 bytes of a code point (1 to 4 bytes, never empty). -/
def utf8Bytes (n : Nat) : List Nat :=
  if n < 0x80 then [n]
  else if n < 0x800 then [0xc0 + n / 64, 0x80 + n % 64]
  else if n < 0x10000 then [0xe0 + n / 4096, 0x80 + n / 64 % 64, 0x80 + n % 64]
  else [0xf0 + n / 262144, 0x80 + n / 4096 % 64, 0x80 + n / 64 % 64, 0x80 + n % 64]

/-- One uppercase hexadecimal digit. -/
def hexDigit (n : Nat) : Char :=
  if n < 10 then Char.ofNat (48 + n) else Char.ofNat (55 + n % 16)

/-- Percent-escape one character, byte by byte. -/
def percentEscape (c : Char) : List Char :=
  (utf8Bytes c.toNat).flatMap (fun b => ['%', hexDigit (b / 16), hexDigit (b % 16)])

/-- `encodeURIComponent`, as the URL construction in `connect` applies it. -/
def encodeURIComponent (s : String) : String :=
  ⟨s.data.flatMap (fun c => if isUnreservedURI c then [c] else percentEscape c)⟩

/-- The variable pieces of the WebSocket URL `connect` builds:
`(ws|wss)://host/ws?name=<nameParam>&room=<roomParam>`. -/
structure WsUrl where
  path : String
  nameParam : String
  roomParam : String
deriving DecidableEq, Repr

/-- `connect` of the current client: validate both inputs (an empty trimmed
name or room aborts with an alert and no socket is opened), close any
previous socket, reset the message and user lists, and open a WebSocket on
path `/ws` whose query carries the URL-encoded trimmed `name` and `room`.
Returns the URL opened (when one is) with the state left behind. -/
def connect (st : ClientState) : Option WsUrl × ClientState :=
  if jsTrim st.name = "" then (none, st)
  else if jsTrim st.room = "" then (none, st)
  else
    (some
      { path := "/ws",
        nameParam := encodeURIComponent (jsTrim st.name),
        roomParam := encodeURIComponent (jsTrim st.room) },
     { st with
       status := .connecting, messages := [], users := [],
       isConnected := true, ws := some .CONNECTING })

/-- The JSON object `send` serialises: `\x7b"type":"chat","text":t\x7d`. -/
structure ChatPayload where
  type : String
  text : String
deriving DecidableEq, Repr

/-- `send` of the current client: transmit only when the socket reference
is set, its `readyState` is `OPEN` and the trimmed input is non-empty; the
payload carries the trimmed input, and the input box is then cleared. -/
def send (st : ClientState) : Option ChatPayload × ClientState :=
  match st.ws with
  | some .OPEN =>
      if jsTrim st.input = "" then (none, st)
      else (some ⟨"chat", jsTrim st.input⟩, { st with input := "" })
  | _ => (none, st)

/-- A selected file, as `FileReader.readAsDataURL` reads it: a MIME type
and the Base64 rendering of its bytes. -/
structure SelectedFile where
  mime : String
  base64 : String
deriving DecidableEq, Repr

/-- The data URL `FileReader.readAsDataURL` hands to `reader.onload` as
`reader.result`: always of the form `data:<mime>;base64,<data>`. -/
def dataURL (f : SelectedFile) : String :=
  "data:" ++ f.mime ++ ";base64," ++ f.base64

/-- The JSON object `handleImageSelect` serialises:
`\x7b"type":"image","imageData":d,"text":""\x7d`. -/
structure ImagePayload where
  type : String
  imageData : String
  text : String
deriving DecidableEq, Repr

/-- `handleImageSelect` of the current client: nothing is sent without a
selected file; once the reader fires, nothing is sent unless the socket
reference is set and `OPEN`; otherwise the data URL is sent as an `image`
payload with empty `text`. -/
def handleImageSelect (file : Option SelectedFile) (ws : Option ReadyState) :
    Option ImagePayload :=
  match file, ws with
  | some f, some .OPEN => some ⟨"image", dataURL f, ""⟩
  | _, _ => none

/-- The own-message check of the render: a message is shown as "me" when
its sender equals the client's current display name. -/
def isOwnMessage (st : ClientState) (m : Msg) : Bool :=
  m.sender == st.name

/-- Modelled from the spec: the backend hub. `main.py` is copied into the
image by `src/Dockerfile` but is not among the repository's source files,
so the hub is modelled from §3, §4.2 and §4.3 of the specification. A hub
maps each room name to the ordered list of its members' display names
(join order). -/
abbrev Hub : Type := String → List String

/-- Modelled from the spec: the hub before any connection; every room is
empty. -/
def emptyHub : Hub := fun _ => []

/-- Modelled from the spec (§4.3, Name Arbitrator): resolve a requested
display name against a room's membership. An empty or whitespace-only
request draws a fresh anonymous label; a free non-empty request is taken
verbatim; a taken request is disambiguated with an incrementing counter
suffix. `none` is the `NameUnavailable` rejection: no tried candidate was
free. -/
def resolveName (req : String) (ms : List String) : Option String :=
  if jsTrim req = "" then
    ((List.range (ms.length + 1)).map
      (fun k => "익명" ++ toString (k + 1))).find? (fun n => !ms.contains n)
  else if !ms.contains req then
    some req
  else
    ((List.range (ms.length + 1)).map
      (fun k => req ++ "-" ++ toString (k + 2))).find? (fun n => !ms.contains n)

/-- Modelled from the spec (§4.2, `join`): reserve a resolved name in the
room atomically; on `NameUnavailable` reject the connection and leave
every room unchanged. Returns the assigned name when admitted. -/
def hubJoin (h : Hub) (r req : String) : Option String × Hub :=
  match resolveName req (h r) with
  | none => (none, h)
  | some n => (some n, fun r2 => if r2 = r then h r ++ [n] else h r2)

/-- Modelled from the spec (§4.2, `leave`): remove the member if present,
an idempotent no-op when absent. -/
def hubLeave (h : Hub) (r n : String) : Hub :=
  fun r2 => if r2 = r then (h r).filter (fun m => m ≠ n) else h r2

/-- Modelled from the spec: the hub operations a run interleaves (the
per-room lock of §5 makes them sequential per room). -/
inductive HubOp where
  | join (r req : String)
  | leave (r n : String)
deriving DecidableEq, Repr

/-- Apply one hub operation to the hub state. -/
def applyHubOp (h : Hub) : HubOp → Hub
  | .join r req => (hubJoin h r req).2
  | .leave r n => hubLeave h r n

/-- Run a sequence of hub operations from the empty hub. -/
def runHub (ops : List HubOp) : Hub :=
  ops.foldl applyHubOp emptyHub

/-- The uniqueness invariant of §3: no room holds a display name twice. -/
def hubNodup (h : Hub) : Prop := ∀ r, (h r).Nodup

/-- Does a delivered payload carry an `image` message? -/
def isImageEvent : InEvent → Bool
  | .msg (.image _ _ _ _ _) => true
  | _ => false

/-! ## Helper lemmas -/

/-- The head of a `dropWhile` result never satisfies the predicate. -/
theorem head_of_dropWhile_false {α : Type} {p : α → Bool} {l : List α} {x : α}
    (h : (l.dropWhile p).head? = some x) : p x = false := by
  have hres := List.head?_dropWhile_not p l
  rw [h] at hres
  exact hres

/-- `dropWhile` only removes from the front: when the result is non-empty
it keeps the last element. -/
theorem getLast_of_dropWhile_ne_nil {α : Type} {p : α → Bool} :
    ∀ {l : List α}, l.dropWhile p ≠ [] →
      (l.dropWhile p).getLast? = l.getLast?
  | [], h => absurd rfl h
  | a :: l, h => by
    by_cases hpa : p a
    · have hd : (a :: l).dropWhile p = l.dropWhile p :=
        List.dropWhile_cons_of_pos hpa
      rw [hd] at h ⊢
      have hl : l ≠ [] := by
        intro e
        subst e
        exact h rfl
      rw [getLast_of_dropWhile_ne_nil h]
      cases l with
      | nil => exact absurd rfl hl
      | cons b l2 => simp
    · rw [List.dropWhile_cons_of_neg hpa]

/-- Trimming is idempotent: a trimmed list has no whitespace left at
either end. -/
theorem jsTrimList_idem (l : List Char) :
    jsTrimList (jsTrimList l) = jsTrimList l := by
  unfold jsTrimList
  have hbdrop :
      ((l.dropWhile jsWhitespace).reverse.dropWhile jsWhitespace).dropWhile
        jsWhitespace =
      (l.dropWhile jsWhitespace).reverse.dropWhile jsWhitespace := by
    cases hb2 : (l.dropWhile jsWhitespace).reverse.dropWhile jsWhitespace with
    | nil => rfl
    | cons y b2 =>
      have hy : jsWhitespace y = false :=
        head_of_dropWhile_false (by rw [hb2]; rfl)
      rw [List.dropWhile_cons_of_neg (by simp [hy])]
  have hmdrop :
      (((l.dropWhile jsWhitespace).reverse.dropWhile
          jsWhitespace).reverse).dropWhile jsWhitespace =
      ((l.dropWhile jsWhitespace).reverse.dropWhile jsWhitespace).reverse := by
    cases hm : ((l.dropWhile jsWhitespace).reverse.dropWhile
        jsWhitespace).reverse with
    | nil => rfl
    | cons x m2 =>
      have h0 : (((l.dropWhile jsWhitespace).reverse.dropWhile
          jsWhitespace).reverse).head? = some x := by
        rw [hm]
        rfl
      rw [List.head?_reverse] at h0
      have hbne : (l.dropWhile jsWhitespace).reverse.dropWhile
          jsWhitespace ≠ [] := by
        intro e
        rw [e] at hm
        simp at hm
      rw [getLast_of_dropWhile_ne_nil hbne, List.getLast?_reverse] at h0
      have hx : jsWhitespace x = false := head_of_dropWhile_false h0
      rw [List.dropWhile_cons_of_neg (by simp [hx])]
  rw [hmdrop, List.reverse_reverse, hbdrop]

/-- Trimming a trimmed string changes nothing. -/
theorem jsTrim_idem (s : String) : jsTrim (jsTrim s) = jsTrim s :=
  congrArg String.mk (jsTrimList_idem s.data)

/-- A non-empty string has a non-empty character list. -/
theorem data_ne_nil_of_ne_empty {s : String} (h : s ≠ "") : s.data ≠ [] := by
  intro e
  apply h
  cases s with
  | mk d =>
    simp only at e
    rw [e]

/-- UTF-8 encodes every code point into at least one byte. -/
theorem utf8Bytes_ne_nil (n : Nat) : utf8Bytes n ≠ [] := by
  unfold utf8Bytes
  split
  · simp
  · split
    · simp
    · split
      · simp
      · simp

/-- A percent escape is never empty. -/
theorem percentEscape_ne_nil (c : Char) : percentEscape c ≠ [] := by
  unfold percentEscape
  cases h : utf8Bytes c.toNat with
  | nil => exact absurd h (utf8Bytes_ne_nil _)
  | cons b bs => simp

/-- `encodeURIComponent` of a non-empty string is non-empty. -/
theorem encodeURIComponent_ne_empty {s : String} (h : s ≠ "") :
    encodeURIComponent s ≠ "" := by
  intro e
  have hdata : s.data.flatMap
      (fun c => if isUnreservedURI c then [c] else percentEscape c) = [] := by
    have h2 := congrArg String.data e
    simpa [encodeURIComponent] using h2
  rw [List.flatMap_eq_nil_iff] at hdata
  cases hs : s.data with
  | nil => exact data_ne_nil_of_ne_empty h hs
  | cons c cs =>
    have hc := hdata c (by rw [hs]; exact List.mem_cons_self c cs)
    by_cases hu : isUnreservedURI c
    · rw [if_pos hu] at hc
      simp at hc
    · rw [if_neg hu] at hc
      exact percentEscape_ne_nil c hc

/-- A data URL always starts with `data:`, so it is never empty. -/
theorem dataURL_ne_empty (f : SelectedFile) : dataURL f ≠ "" := by
  intro e
  have h2 := congrArg String.length e
  simp [dataURL, String.length_append] at h2
  exact absurd h2.1.1.1 (by decide)

/-- The timestamp comparison is transitive. -/
theorem tsLE_trans : ∀ a b c : Msg, tsLE a b → tsLE b c → tsLE a c := by
  intro a b c hab hbc
  simp only [tsLE, decide_eq_true_eq] at *
  omega

/-- The timestamp comparison is total. -/
theorem tsLE_total : ∀ a b : Msg, tsLE a b || tsLE b a := by
  intro a b
  simp only [tsLE, Bool.or_eq_true, decide_eq_true_eq]
  omega

/-- Stability of the history sort: the messages carrying any one timestamp
keep their arrival order (their subsequence is untouched). -/
theorem sortByTimestamp_filter_eq (msgs : List Msg) (t : Nat) :
    (sortByTimestamp msgs).filter (fun m => m.timestamp == t) =
      msgs.filter (fun m => m.timestamp == t) := by
  have hsub : List.Sublist (msgs.filter (fun m => m.timestamp == t))
      (msgs.mergeSort tsLE) := by
    apply List.sublist_mergeSort tsLE_trans tsLE_total
    · apply List.pairwise_of_forall_mem_list
      intro a ha b hb
      have ha2 := (List.mem_filter.mp ha).2
      have hb2 := (List.mem_filter.mp hb).2
      simp only [Nat.beq_eq_true_eq] at ha2 hb2
      simp only [tsLE, ha2, hb2, decide_eq_true_eq]
      exact Nat.le_refl t
    · exact List.filter_sublist msgs
  have hsub2 : List.Sublist (msgs.filter (fun m => m.timestamp == t))
      ((msgs.mergeSort tsLE).filter (fun m => m.timestamp == t)) := by
    have h2 := hsub.filter (fun m => m.timestamp == t)
    rw [List.filter_filter] at h2
    simpa using h2
  have hlen : ((msgs.mergeSort tsLE).filter (fun m => m.timestamp == t)).length =
      (msgs.filter (fun m => m.timestamp == t)).length :=
    ((List.mergeSort_perm msgs tsLE).filter (fun m => m.timestamp == t)).length_eq
  exact (hsub2.eq_of_length hlen.symm).symm

/-- An assigned name is never one a live member of the room already holds. -/
theorem resolveName_not_mem {req : String} {ms : List String} {n : String}
    (h : resolveName req ms = some n) : n ∉ ms := by
  unfold resolveName at h
  split at h
  · have h2 := List.find?_some h
    simpa using h2
  · split at h
    · rename_i hc
      cases h
      simpa using hc
    · have h2 := List.find?_some h
      simpa using h2

/-- The empty hub satisfies the invariant. -/
theorem hubNodup_empty : hubNodup emptyHub := fun _ => List.nodup_nil

/-- `join` preserves the uniqueness invariant. -/
theorem hubJoin_nodup {h : Hub} (hnd : hubNodup h) (r req : String) :
    hubNodup (hubJoin h r req).2 := by
  intro r2
  unfold hubJoin
  cases hres : resolveName req (h r) with
  | none => exact hnd r2
  | some n =>
    simp only
    by_cases he : r2 = r
    · rw [if_pos he]
      refine List.Nodup.append (hnd r) (List.nodup_singleton n) ?_
      intro a ha hb
      rw [List.mem_singleton] at hb
      subst hb
      exact resolveName_not_mem hres ha
    · rw [if_neg he]
      exact hnd r2

/-- `leave` preserves the uniqueness invariant. -/
theorem hubLeave_nodup {h : Hub} (hnd : hubNodup h) (r n : String) :
    hubNodup (hubLeave h r n) := by
  intro r2
  unfold hubLeave
  by_cases he : r2 = r
  · rw [if_pos he]
    exact (hnd r).filter _
  · rw [if_neg he]
    exact hnd r2

/-- Any interleaving of joins and leaves keeps the invariant. -/
theorem foldl_hubOps_nodup :
    ∀ (ops : List HubOp) (h : Hub), hubNodup h →
      hubNodup (ops.foldl applyHubOp h)
  | [], _, hnd => hnd
  | op :: ops, h, hnd => by
    have h1 : hubNodup (applyHubOp h op) := by
      cases op with
      | join r req => exact hubJoin_nodup hnd r req
      | leave r n => exact hubLeave_nodup hnd r n
    exact foldl_hubOps_nodup ops _ h1

/-! ## The claims -/

/-- C1: a `history` event replaces the message list with exactly the
received messages in chronological order — the result is a permutation of
the received list, sorted by non-decreasing timestamp, ties keeping their
arrival order (the subsequence at each timestamp is untouched); and a list
that already arrives chronologically sorted is kept element for element. -/
theorem history_event_sorts_chronologically (st : ClientState) (now : Nat)
    (r : String) (msgs : List Msg) :
    (onMessage st now (.history r msgs)).messages.Perm msgs ∧
    (onMessage st now (.history r msgs)).messages.Pairwise
      (fun a b => a.timestamp ≤ b.timestamp) ∧
    (∀ t, (onMessage st now (.history r msgs)).messages.filter
        (fun m => m.timestamp == t) =
      msgs.filter (fun m => m.timestamp == t)) ∧
    (msgs.Pairwise (fun a b => a.timestamp ≤ b.timestamp) →
      (onMessage st now (.history r msgs)).messages = msgs) := by
  have hmsg : (onMessage st now (.history r msgs)).messages =
      msgs.mergeSort tsLE := rfl
  refine ⟨?_, ?_, ?_, ?_⟩
  · rw [hmsg]
    exact List.mergeSort_perm msgs tsLE
  · rw [hmsg]
    refine (List.sorted_mergeSort tsLE_trans tsLE_total msgs).imp ?_
    intro a b hab
    simpa [tsLE] using hab
  · intro t
    rw [hmsg]
    exact sortByTimestamp_filter_eq msgs t
  · intro hs
    rw [hmsg]
    refine List.mergeSort_of_sorted (hs.imp ?_)
    intro a b hab
    simpa [tsLE] using hab

/-- C2: an `error` event sets the status to the error state, appends one
system message carrying the event's `text`, and nulls the socket reference
(`hardClose`); every other state field is untouched. -/
theorem error_event_reports_and_closes (st : ClientState) (now : Nat)
    (text : String) (reason : Option String) :
    onMessage st now (.error text reason) =
      { st with
        status := .error,
        messages := st.messages ++ [.system text now none],
        ws := none } := rfl

/-- C3: a payload that is not valid JSON, or whose `type` is none of the
seven recognised tags, leaves the whole client state — message list, user
list and socket included — unchanged. -/
theorem unrecognised_payload_has_no_effect (st : ClientState) (now : Nat) :
    onMessage st now .other = st ∧ onMessage st now .malformed = st :=
  ⟨rfl, rfl⟩

/-- C4: `send` transmits exactly when the socket is open and the trimmed
input is non-empty, the payload is the chat object carrying the trimmed
input, and hence every transmitted chat payload has non-empty text after
trimming. -/
theorem send_trims_and_requires_open_socket (st : ClientState) :
    ((send st).1.isSome ↔ st.ws = some .OPEN ∧ jsTrim st.input ≠ "") ∧
    (∀ p, (send st).1 = some p →
      p = ⟨"chat", jsTrim st.input⟩ ∧ jsTrim p.text ≠ "") := by
  unfold send
  cases hws : st.ws with
  | none => simp
  | some rs =>
    cases rs with
    | OPEN =>
      by_cases hin : jsTrim st.input = ""
      · simp [hin]
      · constructor
        · simp [hin]
        · intro p hp
          rw [if_neg hin] at hp
          simp only [Option.some.injEq] at hp
          subst hp
          exact ⟨rfl, by rw [jsTrim_idem]; exact hin⟩
    | CONNECTING => simp
    | CLOSING => simp
    | CLOSED => simp

/-- C5: `connect` opens a socket exactly when both trimmed inputs are
non-empty, and the URL targets `/ws` with the URL-encoded trimmed `name`
and `room` as query parameters — so the room parameter is never absent or
empty. -/
theorem connect_requires_name_and_room (st : ClientState) :
    ((connect st).1.isSome ↔ jsTrim st.name ≠ "" ∧ jsTrim st.room ≠ "") ∧
    (∀ u, (connect st).1 = some u →
      u.path = "/ws" ∧
      u.nameParam = encodeURIComponent (jsTrim st.name) ∧
      u.roomParam = encodeURIComponent (jsTrim st.room) ∧
      u.roomParam ≠ "") := by
  unfold connect
  by_cases hn : jsTrim st.name = ""
  · simp [hn]
  · by_cases hr : jsTrim st.room = ""
    · simp [hn, hr]
    · constructor
      · simp [hn, hr]
      · intro u hu
        rw [if_neg hn, if_neg hr] at hu
        simp only [Option.some.injEq] at hu
        subst hu
        exact ⟨rfl, rfl, rfl, encodeURIComponent_ne_empty hr⟩

/-- C6: a `users` event replaces the user list with exactly the received
array in its order, and leaves the message list and the status unchanged. -/
theorem users_event_replaces_user_list (st : ClientState) (now : Nat)
    (us : List String) :
    (onMessage st now (.users us)).users = us ∧
    (onMessage st now (.users us)).messages = st.messages ∧
    (onMessage st now (.users us)).status = st.status :=
  ⟨rfl, rfl, rfl⟩

/-- C7: an `assign` event sets the display name to the assigned name,
appends exactly one system message announcing it, leaves the user list
unchanged, and own-message rendering afterwards compares senders against
the assigned name. -/
theorem assign_event_sets_display_name (st : ClientState) (now : Nat)
    (n : String) (rm : Option String) :
    (onMessage st now (.assign n rm)).name = n ∧
    (onMessage st now (.assign n rm)).messages =
      st.messages ++ [.system (assignNotice n) now none] ∧
    (onMessage st now (.assign n rm)).users = st.users ∧
    (∀ m : Msg, isOwnMessage (onMessage st now (.assign n rm)) m =
      (m.sender == n)) :=
  ⟨rfl, rfl, rfl, fun _ => rfl⟩

/-- C8: an image payload is sent exactly when a file is selected and the
socket is open, and it is the image object whose `imageData` is the
FileReader data URL of the file (never empty) and whose `text` is the
empty string. -/
theorem image_select_sends_data_url_payload (file : Option SelectedFile)
    (ws : Option ReadyState) :
    ((handleImageSelect file ws).isSome ↔ file.isSome ∧ ws = some .OPEN) ∧
    (∀ p, handleImageSelect file ws = some p →
      ∃ f, file = some f ∧ p = ⟨"image", dataURL f, ""⟩ ∧ p.imageData ≠ "") := by
  cases file with
  | none =>
    constructor
    · simp [handleImageSelect]
    · intro p hp
      simp [handleImageSelect] at hp
  | some f =>
    cases ws with
    | none =>
      constructor
      · simp [handleImageSelect]
      · intro p hp
        simp [handleImageSelect] at hp
    | some rs =>
      cases rs with
      | OPEN =>
        constructor
        · simp [handleImageSelect]
        · intro p hp
          simp only [handleImageSelect, Option.some.injEq] at hp
          subst hp
          exact ⟨f, rfl, rfl, dataURL_ne_empty f⟩
      | CONNECTING =>
        constructor
        · simp [handleImageSelect]
        · intro p hp
          simp [handleImageSelect] at hp
      | CLOSING =>
        constructor
        · simp [handleImageSelect]
        · intro p hp
          simp [handleImageSelect] at hp
      | CLOSED =>
        constructor
        · simp [handleImageSelect]
        · intro p hp
          simp [handleImageSelect] at hp

/-- C9: across any sequence of hub operations no room ever holds a display
name twice, and a successful `join` never admits a connection under a name
already held by a live member of the room. The hub is modelled from the
specification (its code, `main.py`, is not among the repository's files). -/
theorem hub_room_names_unique (ops : List HubOp) (r : String) :
    (runHub ops r).Nodup ∧
    (∀ (h : Hub) (req n : String), (hubJoin h r req).1 = some n → n ∉ h r) := by
  constructor
  · exact foldl_hubOps_nodup ops emptyHub hubNodup_empty r
  · intro h req n hj
    unfold hubJoin at hj
    cases hres : resolveName req (h r) with
    | none =>
      rw [hres] at hj
      simp at hj
    | some n2 =>
      rw [hres] at hj
      simp only [Option.some.injEq] at hj
      subst hj
      exact resolveName_not_mem hres

/-- C10: on every event other than an `image` message the legacy handler
(the App embedded in `src/Dockerfile`) and the current handler produce the
same state update; on an `image` message the current handler appends it
while the legacy handler changes nothing. -/
theorem legacy_and_current_onmessage_agree (st : ClientState) (now : Nat)
    (ev : InEvent) :
    (isImageEvent ev = false →
      legacyOnMessage st now ev = onMessage st now ev) ∧
    (isImageEvent ev = true →
      legacyOnMessage st now ev = st ∧
      ∃ m, ev = .msg m ∧
        onMessage st now ev = { st with messages := st.messages ++ [m] }) := by
  cases ev with
  | users us => exact ⟨fun _ => rfl, fun h => by simp [isImageEvent] at h⟩
  | error text reason => exact ⟨fun _ => rfl, fun h => by simp [isImageEvent] at h⟩
  | assign n rm => exact ⟨fun _ => rfl, fun h => by simp [isImageEvent] at h⟩
  | history r msgs => exact ⟨fun _ => rfl, fun h => by simp [isImageEvent] at h⟩
  | msg m =>
    cases m with
    | chat text sender ts rm =>
      exact ⟨fun _ => rfl, fun h => by simp [isImageEvent] at h⟩
    | system text ts rm =>
      exact ⟨fun _ => rfl, fun h => by simp [isImageEvent] at h⟩
    | image text d sender ts rm =>
      refine ⟨fun h => by simp [isImageEvent] at h, fun _ => ⟨rfl, ?_⟩⟩
      exact ⟨.image text d sender ts rm, rfl, rfl⟩
  | other => exact ⟨fun _ => rfl, fun h => by simp [isImageEvent] at h⟩
  | malformed => exact ⟨fun _ => rfl, fun h => by simp [isImageEvent] at h⟩
